import Mathlib

/-!
Verification development for the MSPN simulation core
(`src/game.ts`, `src/reputation.ts`, `src/agent.ts`).

The TypeScript kernel is embedded shallowly:

* enums become inductive types whose constructors carry the enum's
  string values via explicit `toString` functions (the strings appear
  in error messages and history lines);
* JavaScript numbers become `ℚ` (payoffs, once rounded by
  `Math.round`, become `ℤ`);
* the seeded generator `this.rng()` is threaded as explicit rational
  draw parameters, one per call site, in call order;
* fallible methods (`setProposal`, `setReview`, `resolveExecution`)
  return `Except String GameState`; a `throw` in the source happens
  before any assignment to `this.state`, so the object-level semantics
  of a failing call is "state unchanged", captured by `runGOp`;
* object identity matters in `game.ts`: `initializeGame` builds one
  `own` record and one `aboutOpponent` record, and every later
  `{ ...x }` spread copies *references* to those two records, never the
  records themselves, while `updateBeliefs` mutates them in place.
  The embedding therefore keeps an explicit two-cell store of belief
  pairs (`Store`) and per-agent reference records (`NestedBeliefRef`),
  exactly mirroring which heap cells exist and who points at them.
-/

namespace MSPN

/-- `ProtocolLevel` enum from `types.ts` (values 'low' | 'medium' | 'high'). -/
inductive ProtocolLevel
  | low
  | medium
  | high
deriving DecidableEq, Repr

/-- String value of a `ProtocolLevel` enum member. -/
def protocolToString : ProtocolLevel → String
  | .low => "low"
  | .medium => "medium"
  | .high => "high"

/-- `ReviewAction` enum from `types.ts`. -/
inductive ReviewAction
  | accept
  | modifyLow
  | modifyMedium
  | modifyHigh
  | reject
deriving DecidableEq, Repr

/-- String value of a `ReviewAction` enum member. -/
def reviewActionToString : ReviewAction → String
  | .accept => "accept"
  | .modifyLow => "modify-low"
  | .modifyMedium => "modify-medium"
  | .modifyHigh => "modify-high"
  | .reject => "reject"

/-- `TrueState` enum from `types.ts`. -/
inductive TrueState
  | safeLow
  | dangerousLow
deriving DecidableEq, Repr

/-- `Phase` enum from `types.ts` (values 'proposal' | 'review' | 'execution' | 'end'). -/
inductive Phase
  | proposal
  | review
  | execution
  | ended
deriving DecidableEq, Repr

/-- String value of a `Phase` enum member. -/
def phaseToString : Phase → String
  | .proposal => "proposal"
  | .review => "review"
  | .execution => "execution"
  | .ended => "end"

/-- One `Record<TrueState, number>` object: a probability pair. -/
structure BeliefPair where
  safeLow : ℚ
  dangerousLow : ℚ
deriving DecidableEq, Repr

/-- Heap addresses of the belief-pair records.  `initializeGame` creates
exactly two such records (`initialBelief.own` and
`initialBelief.aboutOpponent`) and no code path ever allocates another:
every `{ ...belief }` spread copies the references only. -/
inductive Ref
  | cell0
  | cell1
deriving DecidableEq, Repr

/-- The heap of belief-pair records: one cell per record created by
`initializeGame`. -/
structure Store where
  c0 : BeliefPair
  c1 : BeliefPair
deriving DecidableEq, Repr

/-- Dereference a belief-pair record. -/
def Store.read (s : Store) : Ref → BeliefPair
  | .cell0 => s.c0
  | .cell1 => s.c1

/-- In-place mutation of a belief-pair record. -/
def Store.write (s : Store) (r : Ref) (p : BeliefPair) : Store :=
  match r with
  | .cell0 => { s with c0 := p }
  | .cell1 => { s with c1 := p }

/-- A `NestedBelief` value as it exists at runtime: a record holding
*references* to its `own` and `aboutOpponent` pair objects. -/
structure NestedBeliefRef where
  own : Ref
  aboutOpponent : Ref
deriving DecidableEq, Repr

/-- `AgentId` type from `types.ts` ('A' | 'B'). -/
inductive AgentId
  | A
  | B
deriving DecidableEq, Repr

/-- `GameState` from `types.ts`, with the belief heap made explicit. -/
structure GameState where
  trueState : TrueState
  phase : Phase
  proposal : Option ProtocolLevel
  reviewAction : Option ReviewAction
  finalProtocol : Option ProtocolLevel
  beliefA : NestedBeliefRef
  beliefB : NestedBeliefRef
  store : Store
  history : List String
  payoffs : Option (ℤ × ℤ)
deriving DecidableEq, Repr

/-- `agentBeliefs[agentId.toLowerCase()]`. -/
def GameState.beliefOf (st : GameState) : AgentId → NestedBeliefRef
  | .A => st.beliefA
  | .B => st.beliefB

/-- Write back `agentBeliefs[agentId.toLowerCase()] = updatedBelief`. -/
def GameState.setBeliefOf (st : GameState) (ag : AgentId) (b : NestedBeliefRef) : GameState :=
  match ag with
  | .A => { st with beliefA := b }
  | .B => { st with beliefB := b }

/-- The value of a role's `own` pair as an observer reads it
(dereferencing the role's `own` reference). -/
def observedOwn (st : GameState) (ag : AgentId) : BeliefPair :=
  st.store.read (st.beliefOf ag).own

/-- The value of a role's `aboutOpponent` pair as an observer reads it. -/
def observedAbout (st : GameState) (ag : AgentId) : BeliefPair :=
  st.store.read (st.beliefOf ag).aboutOpponent

/-- `GameConfig` from `types.ts` (`maxRounds` is never read by the kernel
and is omitted). -/
structure GameConfig where
  beliefUpdateProposal : ℚ
  beliefUpdateReview : ℚ
  payoffNoise : ℚ
  initialBeliefAlignment : ℚ
deriving DecidableEq, Repr

/-- The defaults installed by the `MSPNGame` constructor. -/
def defaultConfig : GameConfig :=
  { beliefUpdateProposal := 1/5
    beliefUpdateReview := 3/20
    payoffNoise := 1
    initialBeliefAlignment := 7/10 }

/-- `Math.max(lo, Math.min(hi, x))`. -/
def clampQ (lo hi x : ℚ) : ℚ := max lo (min hi x)

/-- `Math.round`: round half toward positive infinity. -/
def jsRound (q : ℚ) : ℤ := ⌊q + 1/2⌋

/-- `normalizeBelief` (game.ts lines 243-255): divide by the total,
clamp `SafeLow` into `[0.01, 0.99]`, re-derive the complement; if the
total is not positive, reset to `(0.5, 0.5)`. -/
def normalizeBelief (p : BeliefPair) : BeliefPair :=
  let total := p.safeLow + p.dangerousLow
  if 0 < total then
    let s := clampQ (1/100) (99/100) (p.safeLow / total)
    { safeLow := s, dangerousLow := 1 - s }
  else
    { safeLow := 1/2, dangerousLow := 1/2 }

/-- `initializeGame` (game.ts lines 30-74).  The four `this.rng()` calls
are passed in call order: `r1` draws the hidden state, `r2` the belief
noise, `r3` and `r4` the two `aboutOpponent` perturbations (`r4` is
consumed but its effect is overwritten by the normalization at lines
64-65).  The two belief-pair records are allocated at `cell0` (`own`)
and `cell1` (`aboutOpponent`); both agents' `NestedBelief` records hold
references to those same two cells, because `{ ...initialBelief }`
copies the references, not the records. -/
def initializeGame (cfg : GameConfig) (r1 r2 r3 r4 : ℚ) : GameState :=
  let trueState := if r1 < 1/2 then TrueState.safeLow else TrueState.dangerousLow
  let alignment := cfg.initialBeliefAlignment
  let noise := (r2 - 1/2) * (1/5)
  let safeProb :=
    if trueState = TrueState.safeLow then alignment + noise else 1 - alignment + noise
  let safeProbClamped := clampQ (1/10) (9/10) safeProb
  let dangerousProb := 1 - safeProbClamped
  let ownPair : BeliefPair := { safeLow := safeProbClamped, dangerousLow := dangerousProb }
  let aboutSafe := safeProbClamped + (r3 - 1/2) * (1/10)
  let aboutDangerous := 1 - (safeProbClamped + (r4 - 1/2) * (1/10))
  let aboutPair0 : BeliefPair := { safeLow := aboutSafe, dangerousLow := aboutDangerous }
  let oppSafe := clampQ (1/10) (9/10) aboutPair0.safeLow
  let aboutPair : BeliefPair := { aboutPair0 with safeLow := oppSafe, dangerousLow := 1 - oppSafe }
  { trueState := trueState
    phase := Phase.proposal
    proposal := none
    reviewAction := none
    finalProtocol := none
    beliefA := { own := Ref.cell0, aboutOpponent := Ref.cell1 }
    beliefB := { own := Ref.cell0, aboutOpponent := Ref.cell1 }
    store := { c0 := ownPair, c1 := aboutPair }
    history := []
    payoffs := none }

/-- The union argument of `updateBeliefs` together with its `type` tag. -/
inductive BeliefAction
  | proposalAct (p : ProtocolLevel)
  | reviewAct (r : ReviewAction)
deriving DecidableEq, Repr

/-- `updateBeliefs` (game.ts lines 190-241).  `updatedBelief` is a
shallow copy of the acting role's `NestedBelief`, so it holds the same
two references; `+=` on `updatedBelief.own` mutates the shared record
in place, and both `own` and `aboutOpponent` records are then
normalized in place. -/
def updateBeliefs (cfg : GameConfig) (agentId : AgentId) (act : BeliefAction)
    (st : GameState) : GameState :=
  let strength :=
    match act with
    | .proposalAct _ => cfg.beliefUpdateProposal
    | .reviewAct _ => cfg.beliefUpdateReview
  let agentBelief := st.beliefOf agentId
  let updatedBelief := agentBelief
  let ownPair := st.store.read updatedBelief.own
  let nudged : BeliefPair :=
    match act with
    | .proposalAct p =>
      match p with
      | .low =>
        { safeLow := ownPair.safeLow + strength
          dangerousLow := ownPair.dangerousLow - strength }
      | .high =>
        { safeLow := ownPair.safeLow - strength / 2
          dangerousLow := ownPair.dangerousLow + strength / 2 }
      | .medium => ownPair
    | .reviewAct r =>
      match r with
      | .accept =>
        { safeLow := ownPair.safeLow + strength
          dangerousLow := ownPair.dangerousLow - strength }
      | .reject =>
        { safeLow := ownPair.safeLow - strength
          dangerousLow := ownPair.dangerousLow + strength }
      | _ => ownPair
  let store1 := st.store.write updatedBelief.own nudged
  let store2 := store1.write updatedBelief.own (normalizeBelief (store1.read updatedBelief.own))
  let store3 :=
    store2.write updatedBelief.aboutOpponent
      (normalizeBelief (store2.read updatedBelief.aboutOpponent))
  ({ st with store := store3 }).setBeliefOf agentId updatedBelief

/-- `setProposal` (game.ts lines 80-94): only valid in phase Proposal;
records the proposal, appends a history line, advances the phase, then
nudges A's beliefs.  A failing call throws before assigning
`this.state`. -/
def setProposal (cfg : GameConfig) (p : ProtocolLevel) (st : GameState) :
    Except String GameState :=
  if st.phase = Phase.proposal then
    Except.ok (updateBeliefs cfg AgentId.A (BeliefAction.proposalAct p)
      { st with
          phase := Phase.review
          proposal := some p
          history := st.history ++ ["A proposed " ++ protocolToString p] })
  else
    Except.error ("Cannot set proposal in phase " ++ phaseToString st.phase)

/-- `setReview` (game.ts lines 96-110). -/
def setReview (cfg : GameConfig) (r : ReviewAction) (st : GameState) :
    Except String GameState :=
  if st.phase = Phase.review then
    Except.ok (updateBeliefs cfg AgentId.B (BeliefAction.reviewAct r)
      { st with
          phase := Phase.execution
          reviewAction := some r
          history := st.history ++ ["B chose " ++ reviewActionToString r] })
  else
    Except.error ("Cannot set review in phase " ++ phaseToString st.phase)

/-- `calculatePayoffs` (game.ts lines 169-188): base payoff pair from
final protocol and hidden state, with the unreachable trailing fallback
`{a: 2, b: 2}`. -/
def calculatePayoffs (protocol : ProtocolLevel) (trueState : TrueState) : ℚ × ℚ :=
  if protocol = ProtocolLevel.high ∨ protocol = ProtocolLevel.medium then
    (10, 10)
  else if protocol = ProtocolLevel.low then
    if trueState = TrueState.safeLow then (12, 8) else (-5, -5)
  else
    (2, 2)

/-- `resolveExecution` (game.ts lines 112-167): only valid in phase
Execution.  `rA` and `rB` are the two `this.rng()` draws for the payoff
noise.  In the source, a missing `proposal` under Accept flows an
`undefined` protocol into `calculatePayoffs`, which lands in its `{2,2}`
fallback; that corner is mirrored by the `none` branch of the `match`
on the final protocol. -/
def resolveExecution (cfg : GameConfig) (rA rB : ℚ) (st : GameState) :
    Except String GameState :=
  if st.phase = Phase.execution then
    let fpAndBase : Option ProtocolLevel × (ℚ × ℚ) :=
      if st.reviewAction = some ReviewAction.reject then
        (none, (2, 2))
      else
        let fp : Option ProtocolLevel :=
          match st.reviewAction with
          | some .accept => st.proposal
          | some .modifyLow => some ProtocolLevel.low
          | some .modifyMedium => some ProtocolLevel.medium
          | some .modifyHigh => some ProtocolLevel.high
          | _ => some ProtocolLevel.medium
        let base :=
          match fp with
          | some p => calculatePayoffs p st.trueState
          | none => (2, 2)
        (fp, base)
    let fp := fpAndBase.1
    let base := fpAndBase.2
    let noiseA := (rA - 1/2) * 2 * cfg.payoffNoise
    let noiseB := (rB - 1/2) * 2 * cfg.payoffNoise
    let pa := jsRound (base.1 + noiseA)
    let pb := jsRound (base.2 + noiseB)
    let fpText :=
      match fp with
      | some p => protocolToString p
      | none => "rejected"
    Except.ok
      { st with
          phase := Phase.ended
          finalProtocol := fp
          payoffs := some (pa, pb)
          history := st.history ++
            ["Final protocol: " ++ fpText ++ ", Payoffs: A=" ++ toString pa ++
              ", B=" ++ toString pb] }
  else
    Except.error ("Cannot resolve execution in phase " ++ phaseToString st.phase)

/-- One public kernel transition together with the rng draws it consumes. -/
inductive GOp
  | propose (p : ProtocolLevel)
  | review (r : ReviewAction)
  | execute (rA rB : ℚ)
deriving DecidableEq, Repr

/-- Dispatch one transition call. -/
def applyGOp (cfg : GameConfig) (st : GameState) : GOp → Except String GameState
  | .propose p => setProposal cfg p st
  | .review r => setReview cfg r st
  | .execute rA rB => resolveExecution cfg rA rB st

/-- Object-level semantics of one method call on the game instance: a
throwing call happens before any assignment to `this.state`, so the
state is unchanged. -/
def runGOp (cfg : GameConfig) (st : GameState) (op : GOp) : GameState :=
  match applyGOp cfg st op with
  | .ok st' => st'
  | .error _ => st

/-- A sequence of method calls on the game instance. -/
def runGOps (cfg : GameConfig) (st : GameState) (ops : List GOp) : GameState :=
  ops.foldl (runGOp cfg) st

/-!
## Reputation ledger (`reputation.ts`)

`ReputationSystem.models : Map<string, ModelRep>` is embedded as an
association list in insertion order; `Map.set` replaces the value of an
existing key in place and appends a fresh key at the end.  Only the
karma matters (the stored `id` field always equals the key).
-/

/-- The `models` map: policy identifier to karma, in insertion order. -/
abbrev Ledger := List (String × ℚ)

/-- `Map.get`: first (unique) binding of the key. -/
def lget : Ledger → String → Option ℚ
  | [], _ => none
  | e :: rest, id => if e.1 = id then some e.2 else lget rest id

/-- `Map.set`: replace in place if the key is bound, else append. -/
def lset : Ledger → String → ℚ → Ledger
  | [], id, v => [(id, v)]
  | e :: rest, id, v =>
    if e.1 = id then (id, v) :: rest else e :: lset rest id v

/-- `getModelReputation(modelId).karma`: the stored karma, defaulting
to 50 for an unseen policy (reputation.ts lines 96-98). -/
def getKarma (m : Ledger) (modelId : String) : ℚ :=
  (lget m modelId).getD 50

/-- `updateModel` (reputation.ts lines 89-94): add the delta to the
current karma (default 50), clamp to `[0, 100]`, persist. -/
def updateModel (m : Ledger) (modelId : String) (delta : ℚ) : Ledger :=
  let current := getKarma m modelId
  lset m modelId (clampQ 0 100 (current + delta))

/-- The fields of `EpisodeResult` that `ReputationSystem.inspectAndUpdate`
reads.  The remaining fields of the interface (`episodeId`, `history`,
`agentBeliefs`, `reputationDeltas`) are never read by the ledger. -/
structure EpisodeResult where
  trueState : TrueState
  finalProtocol : Option ProtocolLevel
  payoffs : Option (ℤ × ℤ)
  reviewAction : Option ReviewAction
deriving DecidableEq, Repr

/-- `inspectAndUpdate` (reputation.ts lines 17-87).  Returns the delta
pair together with the updated ledger.  The proposer block assigns
`deltas.a`/`deltas.b`; the reviewer block then *reassigns* `deltas.b`
when one of its rules matches (sequential assignment, not addition).
When `finalProtocol` or `payoffs` is absent, the guard at lines 20-22
returns the zero deltas before any `updateModel` call. -/
def inspectAndUpdate (m : Ledger) (ep : EpisodeResult) : (ℚ × ℚ) × Ledger :=
  if ep.finalProtocol = none ∨ ep.payoffs = none then
    ((0, 0), m)
  else
    let fp := ep.finalProtocol
    let proposerBlock : ℚ × ℚ :=
      if fp = some ProtocolLevel.low then
        if ep.trueState = TrueState.dangerousLow then (-20, -10)
        else if ep.trueState = TrueState.safeLow then (5, 2)
        else (0, 0)
      else if fp = some ProtocolLevel.high ∨ fp = some ProtocolLevel.medium then
        (3, 3)
      else (0, 0)
    let da := proposerBlock.1
    let db0 := proposerBlock.2
    let db : ℚ :=
      if ep.reviewAction = some ReviewAction.reject then
        if fp = some ProtocolLevel.low ∧ ep.trueState = TrueState.dangerousLow then 10
        else if fp = some ProtocolLevel.low ∧ ep.trueState = TrueState.safeLow then -5
        else -2
      else if ep.reviewAction = some ReviewAction.accept then
        if fp = some ProtocolLevel.low ∧ ep.trueState = TrueState.dangerousLow then -15
        else if fp = some ProtocolLevel.low ∧ ep.trueState = TrueState.safeLow then 5
        else db0
      else db0
    let m1 := updateModel m "model-A" da
    let m2 := updateModel m1 "model-B" db
    ((da, db), m2)

/-- `exportReputations` (reputation.ts lines 169-175): the mapping as
policyId→karma pairs, in iteration (= insertion) order. -/
def exportReputations (m : Ledger) : List (String × ℚ) := m

/-- `importReputations` (reputation.ts lines 177-185): clear, then set
every entry with its karma clamped to `[0, 100]`. -/
def importReputations (data : List (String × ℚ)) : Ledger :=
  data.foldl (fun acc e => lset acc e.1 (clampQ 0 100 e.2)) []

/-- One operation on the reputation ledger. -/
inductive LOp
  | applyDelta (modelId : String) (delta : ℚ)
  | inspect (ep : EpisodeResult)
  | importAll (data : List (String × ℚ))

/-- Apply one ledger operation. -/
def runLOp (m : Ledger) : LOp → Ledger
  | .applyDelta id d => updateModel m id d
  | .inspect ep => (inspectAndUpdate m ep).2
  | .importAll data => importReputations data

/-- A sequence of ledger operations starting from the empty map. -/
def runLOps (ops : List LOp) : Ledger :=
  ops.foldl runLOp []

/-!
## Per-agent consequences (`agent.ts`)
-/

/-- `ReputationConsequences` from `types.ts`. -/
structure Consequences where
  blockedActions : List ProtocolLevel
  payoffPenalty : ℚ
  autoReject : Bool
deriving DecidableEq, Repr

/-- The mutable fields of the `Agent` class that consequence
enforcement reads (`id`, `reputation.karma`, `consequences`). -/
structure AgentSt where
  id : AgentId
  karma : ℚ
  consequences : Consequences
deriving DecidableEq, Repr

/-- A freshly constructed `Agent` (agent.ts lines 170-179): karma 50,
no blocked actions, no penalty. -/
def mkAgent (id : AgentId) : AgentSt :=
  { id := id
    karma := 50
    consequences := { blockedActions := [], payoffPenalty := 0, autoReject := false } }

/-- `Agent.updateConsequences` (agent.ts lines 218-240): the per-agent
threshold table (30 / 50, penalties 0.5 / 0.2 / 0). -/
def updateConsequences (karma : ℚ) : Consequences :=
  if karma < 30 then
    { blockedActions := [ProtocolLevel.low], payoffPenalty := 1/2, autoReject := false }
  else if karma < 50 then
    { blockedActions := [], payoffPenalty := 1/5, autoReject := false }
  else
    { blockedActions := [], payoffPenalty := 0, autoReject := false }

/-- `Agent.setReputation` (agent.ts lines 209-212): clamp the karma to
`[0, 100]` and recompute the consequences. -/
def AgentSt.setReputation (ag : AgentSt) (karma : ℚ) : AgentSt :=
  let k := clampQ 0 100 karma
  { ag with karma := k, consequences := updateConsequences k }

/-- The `ProtocolLevel | ReviewAction` union handled by
`applyConsequences`. -/
inductive ActionU
  | proto (p : ProtocolLevel)
  | rev (r : ReviewAction)
deriving DecidableEq, Repr

/-- `blockedActions.includes(action as ProtocolLevel)`: string-valued
enum comparison; no `ReviewAction` string ever equals a `ProtocolLevel`
string, so a review action is never in the blocked set. -/
def actionBlocked (blocked : List ProtocolLevel) : ActionU → Bool
  | .proto p => blocked.contains p
  | .rev _ => false

/-- `Agent.applyConsequences` (agent.ts lines 242-260): a blocked
proposal is forced to Medium; then, when karma < 20, the agent is the
Reviewer ('B') and the action is Accept, the action is forced to
Reject. -/
def AgentSt.applyConsequences (ag : AgentSt) (act : ActionU) : ActionU :=
  if actionBlocked ag.consequences.blockedActions act then
    ActionU.proto ProtocolLevel.medium
  else if ag.karma < 20 ∧ ag.id = AgentId.B ∧ act = ActionU.rev ReviewAction.accept then
    ActionU.rev ReviewAction.reject
  else act

/-!
## Concrete inputs used by witnesses and counterexamples
-/

/-- The default configuration with the payoff-noise amplitude set
to 0. -/
def noiselessConfig : GameConfig := { defaultConfig with payoffNoise := 0 }

/-- A concrete execution-phase state: A proposed High, B accepted,
hidden state SafeLow. -/
def execStateW : GameState :=
  { trueState := TrueState.safeLow
    phase := Phase.execution
    proposal := some ProtocolLevel.high
    reviewAction := some ReviewAction.accept
    finalProtocol := none
    beliefA := { own := Ref.cell0, aboutOpponent := Ref.cell1 }
    beliefB := { own := Ref.cell0, aboutOpponent := Ref.cell1 }
    store := { c0 := { safeLow := 1/2, dangerousLow := 1/2 }
               c1 := { safeLow := 1/2, dangerousLow := 1/2 } }
    history := []
    payoffs := none }

/-- A concrete freshly initialized game: draws `0, 1/2, 1/2, 1/2` give
hidden state SafeLow and both roles the belief pair `(0.7, 0.3)`. -/
def freshGameW : GameState := initializeGame defaultConfig 0 (1/2) (1/2) (1/2)

/-!
## Well-formedness predicates
-/

/-- A belief pair is well formed when its two masses add to exactly 1
and each mass lies inside the clamp window `[0.01, 0.99]`. -/
def pairOK (p : BeliefPair) : Prop :=
  p.safeLow + p.dangerousLow = 1 ∧
  1/100 ≤ p.safeLow ∧ p.safeLow ≤ 99/100 ∧
  1/100 ≤ p.dangerousLow ∧ p.dangerousLow ≤ 99/100

/-- Every belief-pair record on the heap is well formed. -/
def storeOK (s : Store) : Prop := pairOK s.c0 ∧ pairOK s.c1

/-- Every karma persisted in the ledger lies in `[0, 100]`. -/
def ledgerOK (m : Ledger) : Prop := ∀ e ∈ m, (0:ℚ) ≤ e.2 ∧ e.2 ≤ 100

/-!
## Helper lemmas
-/

theorem le_clampQ (lo hi x : ℚ) : lo ≤ clampQ lo hi x :=
  le_max_left lo (min hi x)

theorem clampQ_le (lo hi x : ℚ) (h : lo ≤ hi) : clampQ lo hi x ≤ hi :=
  max_le h (min_le_left hi x)

theorem clampQ_eq_self (lo hi x : ℚ) (h1 : lo ≤ x) (h2 : x ≤ hi) :
    clampQ lo hi x = x := by
  unfold clampQ
  rw [min_eq_right h2, max_eq_right h1]

theorem pairOK_normalize (p : BeliefPair) : pairOK (normalizeBelief p) := by
  unfold normalizeBelief pairOK
  by_cases h : 0 < p.safeLow + p.dangerousLow
  · simp only [h, if_pos]
    have h1 := le_clampQ (1/100) (99/100) (p.safeLow / (p.safeLow + p.dangerousLow))
    have h2 := clampQ_le (1/100) (99/100) (p.safeLow / (p.safeLow + p.dangerousLow))
      (by norm_num)
    refine ⟨by ring, h1, h2, by linarith, by linarith⟩
  · simp only [h, if_neg, if_false]
    norm_num

theorem storeOK_write (s : Store) (r : Ref) (p : BeliefPair)
    (hs : storeOK s) (hp : pairOK p) : storeOK (s.write r p) := by
  cases r
  · exact ⟨hp, hs.2⟩
  · exact ⟨hs.1, hp⟩

theorem storeOK_read (s : Store) (r : Ref) (hs : storeOK s) : pairOK (s.read r) := by
  cases r
  · exact hs.1
  · exact hs.2

/-- The store shape produced by `updateBeliefs`: a nudge written at the
acting role's `own` record, that record normalized in place, then the
`aboutOpponent` record normalized in place.  Whatever the nudged value
was, every record ends up either untouched or normalized. -/
theorem storeOK_after_update (s : Store) (r1 r2 : Ref) (nudgedVal : BeliefPair)
    (h : storeOK s) :
    storeOK (((s.write r1 nudgedVal).write r1
        (normalizeBelief ((s.write r1 nudgedVal).read r1))).write r2
        (normalizeBelief (((s.write r1 nudgedVal).write r1
          (normalizeBelief ((s.write r1 nudgedVal).read r1))).read r2))) := by
  cases r1 <;> cases r2
  · exact ⟨pairOK_normalize _, h.2⟩
  · exact ⟨pairOK_normalize _, pairOK_normalize _⟩
  · exact ⟨pairOK_normalize _, pairOK_normalize _⟩
  · exact ⟨h.1, pairOK_normalize _⟩

theorem updateBeliefs_storeOK (cfg : GameConfig) (ag : AgentId) (act : BeliefAction)
    (st : GameState) (h : storeOK st.store) :
    storeOK (updateBeliefs cfg ag act st).store := by
  cases ag <;> exact storeOK_after_update st.store _ _ _ h

theorem updateBeliefs_phase (cfg : GameConfig) (ag : AgentId) (act : BeliefAction)
    (st : GameState) : (updateBeliefs cfg ag act st).phase = st.phase := by
  cases ag <;> rfl

theorem initializeGame_storeOK (cfg : GameConfig) (r1 r2 r3 r4 : ℚ) :
    storeOK (initializeGame cfg r1 r2 r3 r4).store := by
  have key : ∀ x : ℚ, pairOK
      { safeLow := clampQ (1/10) (9/10) x
        dangerousLow := 1 - clampQ (1/10) (9/10) x } := by
    intro x
    have h1 := le_clampQ (1/10) (9/10) x
    have h2 := clampQ_le (1/10) (9/10) x (by norm_num)
    exact ⟨by ring, by linarith, by linarith, by linarith, by linarith⟩
  exact ⟨key _, key _⟩

theorem runGOp_storeOK (cfg : GameConfig) (st : GameState) (op : GOp)
    (h : storeOK st.store) : storeOK (runGOp cfg st op).store := by
  cases op with
  | propose p =>
    simp only [runGOp, applyGOp]
    unfold setProposal
    by_cases hc : st.phase = Phase.proposal
    · rw [if_pos hc]
      exact updateBeliefs_storeOK _ _ _ _ h
    · rw [if_neg hc]
      exact h
  | review r =>
    simp only [runGOp, applyGOp]
    unfold setReview
    by_cases hc : st.phase = Phase.review
    · rw [if_pos hc]
      exact updateBeliefs_storeOK _ _ _ _ h
    · rw [if_neg hc]
      exact h
  | execute rA rB =>
    simp only [runGOp, applyGOp]
    unfold resolveExecution
    by_cases hc : st.phase = Phase.execution
    · rw [if_pos hc]
      exact h
    · rw [if_neg hc]
      exact h

theorem runGOps_storeOK (cfg : GameConfig) (ops : List GOp) (st : GameState)
    (h : storeOK st.store) : storeOK (runGOps cfg st ops).store := by
  induction ops generalizing st with
  | nil => exact h
  | cons op rest ih => exact ih _ (runGOp_storeOK _ _ _ h)

/-!
## Claim theorems
-/

/-- Claim C10: for every finished episode whose final protocol is
absent (a rejected episode), `inspectAndUpdate` returns deltas
`{a: 0, b: 0}` and leaves every policy's stored karma unchanged (the
ledger it returns is the ledger it was given). -/
theorem rejected_episode_no_update (m : Ledger) (ts : TrueState)
    (pay : Option (ℤ × ℤ)) (ra : Option ReviewAction) :
    inspectAndUpdate m ⟨ts, none, pay, ra⟩ = ((0, 0), m) := by
  simp [inspectAndUpdate]

/-- Claim C5: when a final-protocol rule and a review-action rule both
match (review Accept with final protocol Low), the Reviewer delta is
the review-action block's value alone, not the sum of both blocks:
+5 (not 2 + 5 = 7) under SafeLow, and -15 (not -10 + -15 = -25) under
DangerousLow. -/
theorem reviewer_delta_last_write_wins (m : Ledger) (pay : ℤ × ℤ) :
    (inspectAndUpdate m
      ⟨TrueState.safeLow, some ProtocolLevel.low, some pay,
        some ReviewAction.accept⟩).1.2 = 5 ∧
    (inspectAndUpdate m
      ⟨TrueState.dangerousLow, some ProtocolLevel.low, some pay,
        some ReviewAction.accept⟩).1.2 = -15 := by
  constructor <;> simp [inspectAndUpdate]

/-- Claim C6, counterexample: the claim asserts that a Reject episode
in "any other combination" gets Reviewer delta -2, but an episode whose
final protocol is absent — which is what the kernel produces for every
Reject — hits the early guard of `inspectAndUpdate` and gets delta 0,
not -2. -/
theorem reject_no_protocol_counterexample :
    (inspectAndUpdate []
      ⟨TrueState.dangerousLow, none, some (2, 2), some ReviewAction.reject⟩).1.2 = 0 ∧
    (inspectAndUpdate []
      ⟨TrueState.dangerousLow, none, some (2, 2), some ReviewAction.reject⟩).1.2 ≠ -2 := by
  constructor
  · simp [inspectAndUpdate]
  · simp [inspectAndUpdate]

/-- Claim C6, amended: for a Reject episode whose final protocol is
present, the Reviewer delta is +10 for (Low, DangerousLow), -5 for
(Low, SafeLow) and -2 for every other present protocol; when the final
protocol is absent (every kernel-produced Reject episode), the delta
is 0. -/
theorem reject_reviewer_deltas (m : Ledger) (pay : ℤ × ℤ) :
    (inspectAndUpdate m
      ⟨TrueState.dangerousLow, some ProtocolLevel.low, some pay,
        some ReviewAction.reject⟩).1.2 = 10 ∧
    (inspectAndUpdate m
      ⟨TrueState.safeLow, some ProtocolLevel.low, some pay,
        some ReviewAction.reject⟩).1.2 = -5 ∧
    (∀ ts : TrueState,
      (inspectAndUpdate m
        ⟨ts, some ProtocolLevel.medium, some pay, some ReviewAction.reject⟩).1.2 = -2) ∧
    (∀ ts : TrueState,
      (inspectAndUpdate m
        ⟨ts, some ProtocolLevel.high, some pay, some ReviewAction.reject⟩).1.2 = -2) ∧
    (∀ ts : TrueState,
      (inspectAndUpdate m ⟨ts, none, some pay, some ReviewAction.reject⟩).1.2 = 0) := by
  refine ⟨?_, ?_, fun ts => ?_, fun ts => ?_, fun ts => ?_⟩ <;>
    simp [inspectAndUpdate]

/-- Claim C8: a policy whose reputation is set to karma 25 has an
intended Low proposal forced to Medium; the Reviewer (agent B) at karma
15 has an intended Accept forced to Reject; and that override applies
only to the Reviewer (A at karma 15 keeps Accept) and only to the
Accept action (every other review action is kept). -/
theorem consequence_enforcement (id : AgentId) :
    ((mkAgent id).setReputation 25).applyConsequences
      (ActionU.proto ProtocolLevel.low) = ActionU.proto ProtocolLevel.medium ∧
    ((mkAgent AgentId.B).setReputation 15).applyConsequences
      (ActionU.rev ReviewAction.accept) = ActionU.rev ReviewAction.reject ∧
    ((mkAgent AgentId.A).setReputation 15).applyConsequences
      (ActionU.rev ReviewAction.accept) = ActionU.rev ReviewAction.accept ∧
    ((mkAgent AgentId.B).setReputation 15).applyConsequences
      (ActionU.rev ReviewAction.reject) = ActionU.rev ReviewAction.reject ∧
    ((mkAgent AgentId.B).setReputation 15).applyConsequences
      (ActionU.rev ReviewAction.modifyLow) = ActionU.rev ReviewAction.modifyLow ∧
    ((mkAgent AgentId.B).setReputation 15).applyConsequences
      (ActionU.rev ReviewAction.modifyMedium) = ActionU.rev ReviewAction.modifyMedium ∧
    ((mkAgent AgentId.B).setReputation 15).applyConsequences
      (ActionU.rev ReviewAction.modifyHigh) = ActionU.rev ReviewAction.modifyHigh := by
  cases id <;>
    norm_num [AgentSt.applyConsequences, AgentSt.setReputation, mkAgent,
      updateConsequences, actionBlocked, clampQ] <;>
    decide

/-- Claim C1: with payoff-noise amplitude 0, `resolveExecution`
produces exactly the spec's payoff table: High/Accept → {10,10} and
final High; Medium/Accept → {10,10} and final Medium; Low/Accept with
SafeLow → {12,8} and final Low; Low/Accept with DangerousLow → {-5,-5}
and final Low; Reject → {2,2} and no final protocol; Low/ModifyHigh →
{10,10} and final High. -/
theorem payoff_exactness (cfg : GameConfig) (st : GameState) (rA rB : ℚ)
    (hN : cfg.payoffNoise = 0) (hph : st.phase = Phase.execution) :
    (st.proposal = some ProtocolLevel.high → st.reviewAction = some ReviewAction.accept →
      ∃ st', resolveExecution cfg rA rB st = Except.ok st' ∧
        st'.payoffs = some (10, 10) ∧ st'.finalProtocol = some ProtocolLevel.high) ∧
    (st.proposal = some ProtocolLevel.medium → st.reviewAction = some ReviewAction.accept →
      ∃ st', resolveExecution cfg rA rB st = Except.ok st' ∧
        st'.payoffs = some (10, 10) ∧ st'.finalProtocol = some ProtocolLevel.medium) ∧
    (st.proposal = some ProtocolLevel.low → st.reviewAction = some ReviewAction.accept →
      st.trueState = TrueState.safeLow →
      ∃ st', resolveExecution cfg rA rB st = Except.ok st' ∧
        st'.payoffs = some (12, 8) ∧ st'.finalProtocol = some ProtocolLevel.low) ∧
    (st.proposal = some ProtocolLevel.low → st.reviewAction = some ReviewAction.accept →
      st.trueState = TrueState.dangerousLow →
      ∃ st', resolveExecution cfg rA rB st = Except.ok st' ∧
        st'.payoffs = some (-5, -5) ∧ st'.finalProtocol = some ProtocolLevel.low) ∧
    (st.reviewAction = some ReviewAction.reject →
      ∃ st', resolveExecution cfg rA rB st = Except.ok st' ∧
        st'.payoffs = some (2, 2) ∧ st'.finalProtocol = none) ∧
    (st.proposal = some ProtocolLevel.low → st.reviewAction = some ReviewAction.modifyHigh →
      ∃ st', resolveExecution cfg rA rB st = Except.ok st' ∧
        st'.payoffs = some (10, 10) ∧ st'.finalProtocol = some ProtocolLevel.high) := by
  have h1 : ReviewAction.accept ≠ ReviewAction.reject := by decide
  have h1' : ReviewAction.modifyHigh ≠ ReviewAction.reject := by decide
  have h2 : ¬(ProtocolLevel.low = ProtocolLevel.high ∨
      ProtocolLevel.low = ProtocolLevel.medium) := by decide
  have h3 : TrueState.dangerousLow ≠ TrueState.safeLow := by decide
  refine ⟨?_, ?_, ?_, ?_, ?_, ?_⟩
  · intro hp hr
    unfold resolveExecution
    rw [if_pos hph]
    refine ⟨_, rfl, ?_, ?_⟩ <;>
      (try norm_num [hp, hr, hN, calculatePayoffs, jsRound]) <;>
      (try simp only [if_neg h1, if_neg h2, if_neg h3]) <;>
      (try norm_num)
  · intro hp hr
    unfold resolveExecution
    rw [if_pos hph]
    refine ⟨_, rfl, ?_, ?_⟩ <;>
      (try norm_num [hp, hr, hN, calculatePayoffs, jsRound]) <;>
      (try simp only [if_neg h1, if_neg h2, if_neg h3]) <;>
      (try norm_num)
  · intro hp hr hts
    unfold resolveExecution
    rw [if_pos hph]
    refine ⟨_, rfl, ?_, ?_⟩ <;>
      (try norm_num [hp, hr, hts, hN, calculatePayoffs, jsRound]) <;>
      (try simp only [if_neg h1, if_neg h2, if_neg h3]) <;>
      (try norm_num)
  · intro hp hr hts
    unfold resolveExecution
    rw [if_pos hph]
    refine ⟨_, rfl, ?_, ?_⟩ <;>
      (try norm_num [hp, hr, hts, hN, calculatePayoffs, jsRound]) <;>
      (try simp only [if_neg h1, if_neg h2, if_neg h3]) <;>
      (try norm_num)
  · intro hr
    unfold resolveExecution
    rw [if_pos hph]
    refine ⟨_, rfl, ?_, ?_⟩ <;>
      (try norm_num [hr, hN, jsRound])
  · intro hp hr
    unfold resolveExecution
    rw [if_pos hph]
    refine ⟨_, rfl, ?_, ?_⟩ <;>
      (try norm_num [hp, hr, hN, calculatePayoffs, jsRound]) <;>
      (try simp only [if_neg h1', if_neg h2, if_neg h3]) <;>
      (try norm_num)

/-- Witness for C1, at the concrete execution-phase state with proposal
High and review Accept under the noiseless configuration. -/
theorem payoff_exactness_witness :
    ∃ st', resolveExecution noiselessConfig (1/3) (2/3) execStateW = Except.ok st' ∧
      st'.payoffs = some (10, 10) ∧ st'.finalProtocol = some ProtocolLevel.high :=
  (payoff_exactness noiselessConfig execStateW (1/3) (2/3) rfl rfl).1 rfl rfl

/-- Claim C2: each transition called outside its designated phase fails
with an error naming the current phase and leaves the game object's
state unchanged; a successful `setProposal` runs exactly from Proposal
to Review, a successful `setReview` from Review to Execution, and a
successful `resolveExecution` from Execution to End, so the phase
sequence is exactly Proposal, Review, Execution, End. -/
theorem phase_machine_sound (cfg : GameConfig) (st : GameState) :
    (∀ p, st.phase ≠ Phase.proposal →
      setProposal cfg p st =
        Except.error ("Cannot set proposal in phase " ++ phaseToString st.phase) ∧
      runGOp cfg st (GOp.propose p) = st) ∧
    (∀ r, st.phase ≠ Phase.review →
      setReview cfg r st =
        Except.error ("Cannot set review in phase " ++ phaseToString st.phase) ∧
      runGOp cfg st (GOp.review r) = st) ∧
    (∀ rA rB, st.phase ≠ Phase.execution →
      resolveExecution cfg rA rB st =
        Except.error ("Cannot resolve execution in phase " ++ phaseToString st.phase) ∧
      runGOp cfg st (GOp.execute rA rB) = st) ∧
    (∀ p st', setProposal cfg p st = Except.ok st' →
      st.phase = Phase.proposal ∧ st'.phase = Phase.review) ∧
    (∀ r st', setReview cfg r st = Except.ok st' →
      st.phase = Phase.review ∧ st'.phase = Phase.execution) ∧
    (∀ rA rB st', resolveExecution cfg rA rB st = Except.ok st' →
      st.phase = Phase.execution ∧ st'.phase = Phase.ended) := by
  refine ⟨?_, ?_, ?_, ?_, ?_, ?_⟩
  · intro p hne
    simp only [runGOp, applyGOp]
    unfold setProposal
    rw [if_neg hne]
    exact ⟨rfl, rfl⟩
  · intro r hne
    simp only [runGOp, applyGOp]
    unfold setReview
    rw [if_neg hne]
    exact ⟨rfl, rfl⟩
  · intro rA rB hne
    simp only [runGOp, applyGOp]
    unfold resolveExecution
    rw [if_neg hne]
    exact ⟨rfl, rfl⟩
  · intro p st' h
    unfold setProposal at h
    by_cases hc : st.phase = Phase.proposal
    · rw [if_pos hc] at h
      refine ⟨hc, ?_⟩
      cases h
      rw [updateBeliefs_phase]
    · rw [if_neg hc] at h
      exact absurd h (by simp)
  · intro r st' h
    unfold setReview at h
    by_cases hc : st.phase = Phase.review
    · rw [if_pos hc] at h
      refine ⟨hc, ?_⟩
      cases h
      rw [updateBeliefs_phase]
    · rw [if_neg hc] at h
      exact absurd h (by simp)
  · intro rA rB st' h
    unfold resolveExecution at h
    by_cases hc : st.phase = Phase.execution
    · rw [if_pos hc] at h
      refine ⟨hc, ?_⟩
      cases h
      rfl
    · rw [if_neg hc] at h
      exact absurd h (by simp)

/-- Witness for C2: at the concrete execution-phase state, a proposal
call fails with the message naming phase execution and leaves the state
untouched. -/
theorem phase_machine_witness :
    setProposal defaultConfig ProtocolLevel.low execStateW =
      Except.error ("Cannot set proposal in phase " ++ phaseToString execStateW.phase) ∧
    runGOp defaultConfig execStateW (GOp.propose ProtocolLevel.low) = execStateW :=
  (phase_machine_sound defaultConfig execStateW).1 ProtocolLevel.low (by decide)

/-- Claim C3: at every observation point of every episode — after
initialization and after any sequence of transition calls — each role's
`own` pair and each role's `aboutOpponent` pair is well formed: its two
masses add to exactly 1 and each mass lies in the clamp window
`[0.01, 0.99]`. -/
theorem beliefs_invariant (cfg : GameConfig) (r1 r2 r3 r4 : ℚ) (ops : List GOp)
    (ag : AgentId) :
    pairOK (observedOwn (runGOps cfg (initializeGame cfg r1 r2 r3 r4) ops) ag) ∧
    pairOK (observedAbout (runGOps cfg (initializeGame cfg r1 r2 r3 r4) ops) ag) := by
  have h := runGOps_storeOK cfg ops _ (initializeGame_storeOK cfg r1 r2 r3 r4)
  exact ⟨storeOK_read _ _ h, storeOK_read _ _ h⟩

theorem ledgerOK_nil : ledgerOK [] := by
  intro e he
  cases he

theorem clampQ01_bounds (v : ℚ) : 0 ≤ clampQ 0 100 v ∧ clampQ 0 100 v ≤ 100 :=
  ⟨le_clampQ _ _ _, clampQ_le _ _ _ (by norm_num)⟩

theorem ledgerOK_lset : ∀ (m : Ledger), ledgerOK m → ∀ (id : String) (v : ℚ),
    0 ≤ v → v ≤ 100 → ledgerOK (lset m id v) := by
  intro m
  induction m with
  | nil =>
    intro _ id v hv1 hv2 e he
    rcases List.mem_singleton.mp he with rfl
    exact ⟨hv1, hv2⟩
  | cons hd tl ih =>
    intro h id v hv1 hv2 e he
    have htl : ledgerOK tl := fun e' he' => h _ (List.mem_cons_of_mem _ he')
    unfold lset at he
    by_cases hk : hd.1 = id
    · rw [if_pos hk] at he
      rcases List.mem_cons.mp he with rfl | h2
      · exact ⟨hv1, hv2⟩
      · exact htl _ h2
    · rw [if_neg hk] at he
      rcases List.mem_cons.mp he with rfl | h2
      · exact h _ (List.mem_cons_self _ _)
      · exact ih htl id v hv1 hv2 _ h2

theorem ledgerOK_updateModel (m : Ledger) (id : String) (d : ℚ)
    (h : ledgerOK m) : ledgerOK (updateModel m id d) :=
  ledgerOK_lset m h id _ (clampQ01_bounds _).1 (clampQ01_bounds _).2

theorem ledgerOK_inspect (m : Ledger) (ep : EpisodeResult)
    (h : ledgerOK m) : ledgerOK (inspectAndUpdate m ep).2 := by
  unfold inspectAndUpdate
  by_cases hg : ep.finalProtocol = none ∨ ep.payoffs = none
  · rw [if_pos hg]
    exact h
  · rw [if_neg hg]
    exact ledgerOK_updateModel _ _ _ (ledgerOK_updateModel _ _ _ h)

theorem ledgerOK_import (data : List (String × ℚ)) :
    ledgerOK (importReputations data) := by
  unfold importReputations
  have key : ∀ (l : List (String × ℚ)) (acc : Ledger), ledgerOK acc →
      ledgerOK (l.foldl (fun a e => lset a e.1 (clampQ 0 100 e.2)) acc) := by
    intro l
    induction l with
    | nil => intro acc hacc; exact hacc
    | cons e rest ih =>
      intro acc hacc
      exact ih _ (ledgerOK_lset acc hacc _ _ (clampQ01_bounds _).1 (clampQ01_bounds _).2)
  exact key data [] ledgerOK_nil

theorem ledgerOK_runLOps (ops : List LOp) : ledgerOK (runLOps ops) := by
  unfold runLOps
  have key : ∀ (l : List LOp) (acc : Ledger), ledgerOK acc →
      ledgerOK (l.foldl runLOp acc) := by
    intro l
    induction l with
    | nil => intro acc hacc; exact hacc
    | cons op rest ih =>
      intro acc hacc
      refine ih _ ?_
      cases op with
      | applyDelta id d => exact ledgerOK_updateModel _ _ _ hacc
      | inspect ep => exact ledgerOK_inspect _ _ hacc
      | importAll data => exact ledgerOK_import _
  exact key ops [] ledgerOK_nil

theorem getKarma_bounds_of_ledgerOK : ∀ (m : Ledger), ledgerOK m → ∀ id : String,
    0 ≤ getKarma m id ∧ getKarma m id ≤ 100 := by
  intro m
  induction m with
  | nil =>
    intro _ id
    unfold getKarma lget
    norm_num
  | cons e rest ih =>
    intro h id
    have htl : ledgerOK rest := fun e' he' => h _ (List.mem_cons_of_mem _ he')
    unfold getKarma lget
    by_cases hk : e.1 = id
    · rw [if_pos hk]
      simpa using h e (List.mem_cons_self _ _)
    · rw [if_neg hk]
      exact ih htl id

theorem lget_none : ∀ (m : Ledger) (id : String), (∀ e ∈ m, e.1 ≠ id) →
    lget m id = none := by
  intro m
  induction m with
  | nil => intro id _; rfl
  | cons e rest ih =>
    intro id h
    unfold lget
    rw [if_neg (h e (List.mem_cons_self _ _))]
    exact ih id (fun e' he' => h _ (List.mem_cons_of_mem _ he'))

/-- Claim C4: across every sequence of ledger operations (applyDelta,
inspect, importAll) starting from a fresh ledger, the karma returned
for any policy identifier lies in `[0, 100]`, and equals 50 for a
policy that no entry of the ledger binds (a policy never written). -/
theorem karma_bounds (ops : List LOp) (id : String) :
    (0 ≤ getKarma (runLOps ops) id ∧ getKarma (runLOps ops) id ≤ 100) ∧
    ((∀ e ∈ runLOps ops, e.1 ≠ id) → getKarma (runLOps ops) id = 50) := by
  refine ⟨getKarma_bounds_of_ledgerOK _ (ledgerOK_runLOps ops) id, fun h => ?_⟩
  unfold getKarma
  rw [lget_none _ _ h]
  rfl

/-- Witness for C4: after one delta of +100 to model-A, the never
written policy model-B still reads karma 50. -/
theorem karma_bounds_witness :
    getKarma (runLOps [LOp.applyDelta "model-A" 100]) "model-B" = 50 := by
  apply (karma_bounds [LOp.applyDelta "model-A" 100] "model-B").2
  intro e he
  simp only [runLOps, runLOp, updateModel, getKarma, lget, List.foldl_cons,
    List.foldl_nil, lset] at he
  rcases List.mem_singleton.mp he with rfl
  simp

theorem lset_append : ∀ (m : Ledger) (id : String) (v : ℚ),
    (∀ e ∈ m, e.1 ≠ id) → lset m id v = m ++ [(id, v)] := by
  intro m
  induction m with
  | nil => intro id v _; rfl
  | cons e rest ih =>
    intro id v h
    unfold lset
    rw [if_neg (h e (List.mem_cons_self _ _))]
    rw [ih id v (fun e' he' => h _ (List.mem_cons_of_mem _ he'))]
    rfl

theorem import_foldl : ∀ (m acc : Ledger),
    ((acc ++ m).map Prod.fst).Nodup →
    (∀ e ∈ m, 0 ≤ e.2 ∧ e.2 ≤ 100) →
    m.foldl (fun a e => lset a e.1 (clampQ 0 100 e.2)) acc = acc ++ m := by
  intro m
  induction m with
  | nil =>
    intro acc _ _
    simp
  | cons e rest ih =>
    intro acc hnodup hval
    have hkey : ∀ e' ∈ acc, e'.1 ≠ e.1 := by
      intro e' he' heq
      rw [List.map_append] at hnodup
      have hdisj := List.disjoint_of_nodup_append hnodup
      exact hdisj (heq ▸ List.mem_map_of_mem Prod.fst he')
        (by simp)
    have hclamp : clampQ 0 100 e.2 = e.2 :=
      clampQ_eq_self _ _ _ (hval e (List.mem_cons_self _ _)).1
        (hval e (List.mem_cons_self _ _)).2
    have hassoc : (acc ++ [e]) ++ rest = acc ++ e :: rest := by simp
    simp only [List.foldl_cons]
    rw [hclamp, lset_append acc e.1 e.2 hkey]
    rw [ih (acc ++ [e]) (by rw [hassoc]; exact hnodup)
      (fun e' he' => hval e' (List.mem_cons_of_mem _ he'))]
    exact hassoc

/-- Claim C9: for a stored karma mapping whose keys are distinct and
whose values lie in `[0, 100]`, importing the export reproduces the
identical mapping: every policy identifier reads the same karma before
and after the round-trip. -/
theorem ledger_roundtrip (m : Ledger) (hnodup : (m.map Prod.fst).Nodup)
    (hval : ∀ e ∈ m, 0 ≤ e.2 ∧ e.2 ≤ 100) (id : String) :
    getKarma (importReputations (exportReputations m)) id = getKarma m id := by
  unfold importReputations exportReputations
  rw [import_foldl m [] (by simpa) hval]
  rfl

/-- Witness for C9: a one-entry ledger survives the round-trip. -/
theorem ledger_roundtrip_witness :
    getKarma (importReputations (exportReputations [("model-A", 37)])) "model-A" =
      getKarma [("model-A", 37)] "model-A" :=
  ledger_roundtrip [("model-A", 37)] (by simp) (by norm_num) "model-A"

/-- Claim C7 is violated by the code: because `{ ...belief }` copies
references, both agents' `NestedBelief` records point at the same `own`
pair object, and the proposal nudge mutates it in place.  At the
concrete fresh game `freshGameW` (both roles observe own pair
`(0.7, 0.3)`), a `setProposal(Low)` call — which nudges only the acting
role A — leaves B observing `(0.9, 0.1)`: the non-acting role's own
pair changed. -/
theorem proposal_mutates_reviewer_belief :
    observedOwn freshGameW AgentId.B = { safeLow := 7/10, dangerousLow := 3/10 } ∧
    observedOwn (runGOp defaultConfig freshGameW (GOp.propose ProtocolLevel.low))
      AgentId.B = { safeLow := 9/10, dangerousLow := 1/10 } ∧
    observedOwn (runGOp defaultConfig freshGameW (GOp.propose ProtocolLevel.low))
      AgentId.B ≠ observedOwn freshGameW AgentId.B := by
  have h1 : observedOwn freshGameW AgentId.B =
      { safeLow := 7/10, dangerousLow := 3/10 } := by
    norm_num [freshGameW, observedOwn, initializeGame, defaultConfig,
      GameState.beliefOf, Store.read, clampQ]
  have h2 : observedOwn (runGOp defaultConfig freshGameW
      (GOp.propose ProtocolLevel.low)) AgentId.B =
      { safeLow := 9/10, dangerousLow := 1/10 } := by
    norm_num [freshGameW, observedOwn, runGOp, applyGOp, setProposal,
      initializeGame, defaultConfig, updateBeliefs, normalizeBelief,
      GameState.beliefOf, GameState.setBeliefOf, Store.read, Store.write, clampQ]
  refine ⟨h1, h2, ?_⟩
  rw [h1, h2]
  intro h
  have := congrArg BeliefPair.safeLow h
  norm_num at this

end MSPN
